import Mathlib

/-!
Shallow embedding of the "solo-leveling-system" progression engine
(`src/main.go`) and proofs about it.

Modelling conventions:
* Go `int` is embedded as `ℤ` (the wasm target has 64-bit ints; no value in
  this program approaches overflow, so we work in unbounded integers).
* Go `float64` arithmetic in the XP curve (`math.Pow(x, 1.5)`, `math.Ceil`)
  is embedded twice.  The exact-real idealization (`Real.rpow`, `Int.ceil`)
  is used for the concrete levels 1-3, where the real values are far from
  integer boundaries so float64 rounding cannot change the ceilings, and for
  the guard-based loop invariant.  A second, float64-level model
  (`float64OfInt`, `calculateXPForLevelFloat`) makes the one decisive
  rounding step — the IEEE 754 `int → float64` conversion, which is not
  injective above `2^53` — explicit while quantifying over every possible
  rounding behaviour of the unspecified library routine; it refutes the
  universally quantified curve properties that fail in the real program.
* `time.Time` is embedded as its instant in nanoseconds (`ℤ`); `time.Duration`
  arithmetic (`now.Sub(t) > thirtyDays`) becomes integer arithmetic.
* A Go `map[string]V` is embedded as `Option (List (String × V))`: `none` is
  the nil map, `some l` an allocated map with entry list `l`.  Go map lookup
  on nil behaves like lookup on empty, which `mapLookup` mirrors.  `delete`
  removes the key (a Go map binds each key at most once, so erasing filters
  every binding of the key).  A Go slice is likewise `Option (List V)` with
  `none` for the nil slice.
* `encoding/json` is an external library; it is embedded semantically as a
  JSON value tree (`Json`) together with Go's documented marshal/unmarshal
  behaviour for the concrete types of this program (struct fields in
  declaration order under their json tags, map keys sorted, nil map/slice as
  `null`, absent or `null` fields leaving the zero value untouched,
  mismatched shapes failing).  `time.Time`'s RFC3339 text form is modelled
  by its instant.
-/

namespace SoloLeveling

/-- An instant in nanoseconds, the embedding of `time.Time`. -/
abbrev Time := Int

/-- Embedding of `type Class struct` of `src/main.go`. -/
structure Class where
  id : String
  name : String
  color : String
  level : ℤ
  xp : ℤ
  xpToNextLevel : ℤ
deriving DecidableEq

/-- Embedding of `type Quest struct` of `src/main.go`. -/
structure Quest where
  id : String
  name : String
  classId : String
  xp : ℤ
deriving DecidableEq

/-- Embedding of `type HistoryEntry struct` of `src/main.go`. -/
structure HistoryEntry where
  questName : String
  classId : String
  xp : ℤ
  completedAt : Time
deriving DecidableEq

/-- A Go `map[string]V`: `none` is the nil map. -/
abbrev GoMap (V : Type) := Option (List (String × V))

/-- Embedding of `type Project struct` of `src/main.go`. -/
structure Project where
  id : String
  name : String
  createdAt : Time
  lastActivity : Time
  quests : GoMap Quest
  history : Option (List HistoryEntry)
  totalXP : ℤ
  isArchived : Bool
deriving DecidableEq

/-- Embedding of `type Player struct` of `src/main.go`. -/
structure Player where
  classes : GoMap Class
  projects : GoMap Project
deriving DecidableEq

/-- Go map read `m[k]`: reading a nil map behaves like reading an empty map. -/
def mapLookup (m : GoMap V) (k : String) : Option V :=
  (m.getD []).lookup k

/-- Go map write `m[k] = v`.  Every write in the source is nil-guarded
(`make` is substituted first), which treating nil as empty mirrors.  A Go map
binds a key once, so the previous binding of `k` is dropped. -/
def mapInsert (m : GoMap V) (k : String) (v : V) : GoMap V :=
  some ((m.getD []).filter (fun kv => kv.1 != k) ++ [(k, v)])

/-- Go `delete(m, k)`: drops every binding of `k`; `delete` on nil is a no-op. -/
def mapErase (m : GoMap V) (k : String) : GoMap V :=
  m.map (fun l => l.filter (fun kv => kv.1 != k))

/-! ## Leveling logic -/

/-- Embedding of `totalXPToReachLevel` (`src/main.go` lines 64-70): total XP needed to
reach `level` from level 1, `10 * (level-1)^1.5` (float64 modelled as ℝ). -/
noncomputable def totalXPToReachLevel (level : ℤ) : ℝ :=
  if level ≤ 1 then 0
  else 10 * ((level : ℝ) - 1) ^ (1.5 : ℝ)

/-- Embedding of `calculateXPForLevel` (`src/main.go` lines 74-83): XP to get from `level`
to `level+1`, with `level` clamped to at least 1 and the difference of the
totals rounded up. -/
noncomputable def calculateXPForLevel (level : ℤ) : ℤ :=
  let l := if level < 1 then 1 else level
  let xpForCurrentLevel := totalXPToReachLevel l
  let xpForNextLevel := totalXPToReachLevel (l + 1)
  ⌈xpForNextLevel - xpForCurrentLevel⌉

lemma totalXPToReachLevel_nonneg (level : ℤ) : 0 ≤ totalXPToReachLevel level := by
  unfold totalXPToReachLevel
  split
  · exact le_refl 0
  · rename_i h
    have hb : (0:ℝ) ≤ (level : ℝ) - 1 := by
      have : (1:ℤ) ≤ level := by omega
      have : (1:ℝ) ≤ (level : ℝ) := by exact_mod_cast this
      linarith
    have := Real.rpow_nonneg hb (1.5 : ℝ)
    linarith

lemma totalXPToReachLevel_lt (level : ℤ) (h1 : 1 ≤ level) :
    totalXPToReachLevel level < totalXPToReachLevel (level + 1) := by
  unfold totalXPToReachLevel
  have hl1 : ¬ (level + 1 ≤ 1) := by omega
  rw [if_neg hl1]
  have hcast : ((level + 1 : ℤ) : ℝ) - 1 = (level : ℝ) := by push_cast; ring
  rw [hcast]
  split
  · have hlev : (1 : ℝ) ≤ (level : ℝ) := by exact_mod_cast h1
    have : (0 : ℝ) < (level : ℝ) ^ (1.5 : ℝ) := Real.rpow_pos_of_pos (by linarith) _
    linarith
  · rename_i h
    apply mul_lt_mul_of_pos_left _ (by norm_num : (0:ℝ) < 10)
    apply Real.rpow_lt_rpow
    · have h2 : (2 : ℤ) ≤ level := by omega
      have : (2 : ℝ) ≤ (level : ℝ) := by exact_mod_cast h2
      linarith
    · linarith
    · norm_num

/-- The XP requirement for any (clamped) level is strictly positive. -/
theorem calculateXPForLevel_pos (level : ℤ) : 0 < calculateXPForLevel level := by
  unfold calculateXPForLevel
  apply Int.ceil_pos.mpr
  have h1 : (1 : ℤ) ≤ (if level < 1 then 1 else level) := by
    split <;> omega
  have := totalXPToReachLevel_lt (if level < 1 then 1 else level) h1
  linarith

lemma rpow_threeHalves {x : ℝ} (hx : 0 < x) : x ^ ((3 : ℝ) / 2) = x * Real.sqrt x := by
  have h15 : ((3 : ℝ) / 2) = 1 + 1 / 2 := by norm_num
  rw [h15, Real.rpow_add hx, Real.rpow_one, ← Real.sqrt_eq_rpow]

lemma sqrt_two_lt : Real.sqrt 2 < 1.41422 := by
  rw [Real.sqrt_lt' (by norm_num)]
  norm_num

lemma lt_sqrt_two : (1.41421 : ℝ) < Real.sqrt 2 := by
  rw [Real.lt_sqrt (by norm_num)]
  norm_num

lemma sqrt_three_lt : Real.sqrt 3 < 1.73206 := by
  rw [Real.sqrt_lt' (by norm_num)]
  norm_num

lemma lt_sqrt_three : (1.73205 : ℝ) < Real.sqrt 3 := by
  rw [Real.lt_sqrt (by norm_num)]
  norm_num

/-- Value `calculateXPForLevel(1) = ceil(10*1^1.5 - 0) = 10`. -/
lemma calculateXPForLevel_one : calculateXPForLevel 1 = 10 := by
  unfold calculateXPForLevel totalXPToReachLevel
  norm_num [Real.one_rpow]

/-- Value `calculateXPForLevel(2) = ceil(10*2^1.5 - 10*1^1.5) = ceil(20*sqrt 2 - 10) = 19`. -/
lemma calculateXPForLevel_two : calculateXPForLevel 2 = 19 := by
  unfold calculateXPForLevel totalXPToReachLevel
  norm_num [Real.one_rpow]
  rw [rpow_threeHalves (by norm_num : (0:ℝ) < 2)]
  have h : ⌈(10 : ℝ) * (2 * Real.sqrt 2)⌉ = 29 := by
    rw [Int.ceil_eq_iff]
    have h1 := lt_sqrt_two
    have h2 := sqrt_two_lt
    constructor
    · push_cast; linarith
    · push_cast; linarith
  rw [h]
  norm_num

/-- Value `calculateXPForLevel(3) = ceil(10*3^1.5 - 10*2^1.5) = ceil(30*sqrt 3 - 20*sqrt 2) = 24`. -/
lemma calculateXPForLevel_three : calculateXPForLevel 3 = 24 := by
  unfold calculateXPForLevel totalXPToReachLevel
  norm_num
  rw [rpow_threeHalves (by norm_num : (0:ℝ) < 3),
    rpow_threeHalves (by norm_num : (0:ℝ) < 2)]
  rw [Int.ceil_eq_iff]
  have h3l := lt_sqrt_three
  have h3u := sqrt_three_lt
  have h2l := lt_sqrt_two
  have h2u := sqrt_two_lt
  constructor
  · push_cast; linarith
  · push_cast; linarith

/-- One iteration of the level-up loop body of `internal_checkClassLevelUp`
(`src/main.go` lines 91-95): increment the level, subtract the previous
requirement from the XP, recompute the requirement for the new level. -/
noncomputable def levelUpStep (c : Class) : Class :=
  { c with
    level := c.level + 1
    xp := c.xp - c.xpToNextLevel
    xpToNextLevel := calculateXPForLevel (c.level + 1) }

/-- Embedding of `internal_checkClassLevelUp` (`src/main.go` lines 87-97): loop as long as
the current XP is enough to level up. -/
noncomputable def internal_checkClassLevelUp (c : Class) : Class :=
  if _h : c.xpToNextLevel ≤ c.xp then internal_checkClassLevelUp (levelUpStep c)
  else c
termination_by (c.xp + 1 - min c.xpToNextLevel 1).toNat
decreasing_by
  have hpos := calculateXPForLevel_pos (c.level + 1)
  simp only [levelUpStep]
  rcases min_cases c.xpToNextLevel 1 with ⟨h1, _⟩ | ⟨h1, _⟩ <;>
    rcases min_cases (calculateXPForLevel (c.level + 1)) 1 with ⟨h2, _⟩ | ⟨h2, _⟩ <;>
      omega

/-- The loop of `internal_checkClassLevelUp`, instrumented with explicit fuel:
`none` means the fuel ran out before the loop guard became false. -/
noncomputable def checkClassLevelUpFuel : ℕ → Class → Option Class
  | 0, c => if c.xpToNextLevel ≤ c.xp then none else some c
  | n + 1, c =>
    if c.xpToNextLevel ≤ c.xp then checkClassLevelUpFuel n (levelUpStep c)
    else some c

lemma internal_checkClassLevelUp_bounds :
    ∀ (n : ℕ) (c : Class), c.xp.toNat ≤ n → 0 ≤ c.xp → 0 < c.xpToNextLevel →
      0 ≤ (internal_checkClassLevelUp c).xp ∧
        (internal_checkClassLevelUp c).xp < (internal_checkClassLevelUp c).xpToNextLevel := by
  intro n
  induction n with
  | zero =>
    intro c hn hxp ht
    rw [internal_checkClassLevelUp]
    have hxp0 : c.xp = 0 := by omega
    rw [dif_neg (by omega)]
    omega
  | succ n ih =>
    intro c hn hxp ht
    rw [internal_checkClassLevelUp]
    by_cases h : c.xpToNextLevel ≤ c.xp
    · rw [dif_pos h]
      have hcalc := calculateXPForLevel_pos (c.level + 1)
      exact ih (levelUpStep c) (by simp only [levelUpStep]; omega)
        (by simp only [levelUpStep]; omega) (by simp only [levelUpStep]; omega)
    · rw [dif_neg h]
      omega

lemma checkClassLevelUpFuel_eq :
    ∀ (n : ℕ) (c : Class), c.xp.toNat < n → 0 < c.xpToNextLevel →
      checkClassLevelUpFuel n c = some (internal_checkClassLevelUp c) := by
  intro n
  induction n with
  | zero => intro c hn _; omega
  | succ n ih =>
    intro c hn ht
    rw [internal_checkClassLevelUp, checkClassLevelUpFuel]
    by_cases h : c.xpToNextLevel ≤ c.xp
    · rw [if_pos h, dif_pos h]
      have hcalc := calculateXPForLevel_pos (c.level + 1)
      exact ih (levelUpStep c) (by simp only [levelUpStep]; omega)
        (by simp only [levelUpStep]; omega)
    · rw [if_neg h, dif_neg h]

/-! ## Float64-level model of the XP curve

The exact-real embedding above idealizes the source's float64 arithmetic.
That idealization is harmless for the concrete levels 1-3 and for the
guard-based loop invariant, but not for universally quantified properties of
the curve: the `int → float64` conversion in `float64(level-1)`
(`src/main.go` line 69) is not injective above `2^53`, and the conversion —
unlike `math.Pow`'s rounding, which Go does not specify — is fully determined
by IEEE 754 (round to nearest, ties to even).  The model below makes exactly
that one rounding step explicit and leaves the rest of the float64 curve
computation `10.0 * math.Pow(., 1.5)` as an arbitrary function `curve`, so a
theorem quantified over `curve` holds for every possible rounding behaviour
of the library routine.  Where the two operands of the final subtraction are
results of `curve` on bit-identical arguments, the float64 subtraction is
exactly `0.0` and `int(math.Ceil(0.0)) = 0`, which the exact subtraction and
ceiling used below reproduce faithfully. -/

/-- Floor of the base-2 logarithm, by structural recursion on a fuel
argument so that it evaluates inside the kernel (`Nat.log2` is defined by
well-founded recursion and does not). -/
def log2Fuel : ℕ → ℕ → ℕ
  | 0, _ => 0
  | fuel + 1, n => if n < 2 then 0 else log2Fuel fuel (n / 2) + 1

/-- Value of the float64 nearest to the integer `n` (round to nearest, ties
to even): the IEEE 754 semantics of Go's `float64(n)` conversion.  Integers
of magnitude at most `2^53` convert exactly; above that, `n` is rounded to
the grid of multiples of `2^(log2 n - 52)`. -/
def float64OfInt (n : ℤ) : ℤ :=
  if n.natAbs ≤ 2 ^ 53 then n
  else
    let m := n.natAbs
    let e := log2Fuel m m - 52
    let g := (2 : ℕ) ^ e
    let q := m / g
    let r := m % g
    let rounded :=
      if 2 * r < g then q * g
      else if g < 2 * r then (q + 1) * g
      else if q % 2 = 0 then q * g else (q + 1) * g
    n.sign * (rounded : ℤ)

/-- `totalXPToReachLevel` with the `int → float64` conversion explicit and
the float64 curve routine `10.0 * math.Pow(., 1.5)` as the parameter
`curve`. -/
def totalXPToReachLevelFloat (curve : ℤ → ℚ) (level : ℤ) : ℚ :=
  if level ≤ 1 then 0 else curve (float64OfInt (level - 1))

/-- `calculateXPForLevel` over the float64-level curve model. -/
def calculateXPForLevelFloat (curve : ℤ → ℚ) (level : ℤ) : ℤ :=
  let l := if level < 1 then 1 else level
  let xpForCurrentLevel := totalXPToReachLevelFloat curve l
  let xpForNextLevel := totalXPToReachLevelFloat curve (l + 1)
  ⌈xpForNextLevel - xpForCurrentLevel⌉

/-- One iteration of the level-up loop body over the float64-level curve
model (the `int` fields themselves are exact in Go). -/
def levelUpStepFloat (curve : ℤ → ℚ) (c : Class) : Class :=
  { c with
    level := c.level + 1
    xp := c.xp - c.xpToNextLevel
    xpToNextLevel := calculateXPForLevelFloat curve (c.level + 1) }

/-- The conversion collapse: `float64(2^54 + 1)` rounds to `float64(2^54)`
(the grid spacing at `2^54` is 4, and `2^54 + 1` is nearer to `2^54`);
`18014398509481985 = 2^54 + 1`. -/
lemma float64OfInt_collapse :
    float64OfInt 18014398509481985 = float64OfInt 18014398509481984 := by
  decide

/-- At level `2^54 + 1` (`= 18014398509481985`) the source computes both
totals by the same float64 routine on bit-identical arguments, so their
difference is exactly zero and the returned XP requirement is 0 — whatever
the routine's rounding. -/
lemma calculateXPForLevelFloat_collapse (curve : ℤ → ℚ) :
    calculateXPForLevelFloat curve 18014398509481985 = 0 := by
  unfold calculateXPForLevelFloat totalXPToReachLevelFloat
  norm_num
  rw [float64OfInt_collapse]
  simp

/-! ## JSON codec

`encoding/json` is an external library, embedded semantically: a JSON value
tree together with Go's marshal/unmarshal behaviour for this program's types.
The text-level lexer (bytes to tree) is not code of this repository and is
kept as an explicit parameter where it matters (`loadPlayerData`). -/

/-- A JSON value.  Numbers are integers (every number this program stores is
an integer; `time.Time`'s RFC3339 text is modelled by its instant). -/
inductive Json where
  | null
  | bool (b : Bool)
  | num (n : ℤ)
  | str (s : String)
  | arr (elems : List Json)
  | obj (fields : List (String × Json))

/-- Go zero value of `Class`. -/
def zeroClass : Class := ⟨"", "", "", 0, 0, 0⟩

/-- Go zero value of `Quest`. -/
def zeroQuest : Quest := ⟨"", "", "", 0⟩

/-- Go zero value of `HistoryEntry`. -/
def zeroHistoryEntry : HistoryEntry := ⟨"", "", 0, 0⟩

/-- Go zero value of `Project` (nil quests map, nil history slice). -/
def zeroProject : Project := ⟨"", "", 0, 0, none, none, 0, false⟩

/-- Go zero value of `Player` (nil maps), the state `var loadedPlayer Player`
starts from before `json.Unmarshal` runs. -/
def zeroPlayer : Player := ⟨none, none⟩

/-- The freshly initialized player state `Player{make, make}` that
`loadPlayerData` defaults to (`src/main.go` lines 121-124). -/
def emptyPlayer : Player := ⟨some [], some []⟩

/-! ### Marshaling (`json.Marshal` on this program's types) -/

/-- A `time.Time` marshals to its (injectively rendered) instant. -/
def encodeTime (t : Time) : Json := .num t

/-- Struct fields marshal in declaration order under their json tags. -/
def encodeClass (c : Class) : Json :=
  .obj [("id", .str c.id), ("name", .str c.name), ("color", .str c.color),
    ("level", .num c.level), ("xp", .num c.xp),
    ("xpToNextLevel", .num c.xpToNextLevel)]

def encodeQuest (q : Quest) : Json :=
  .obj [("id", .str q.id), ("name", .str q.name), ("classId", .str q.classId),
    ("xp", .num q.xp)]

def encodeHistoryEntry (e : HistoryEntry) : Json :=
  .obj [("questName", .str e.questName), ("classId", .str e.classId),
    ("xp", .num e.xp), ("completedAt", encodeTime e.completedAt)]

/-- A nil map marshals to `null`; an allocated map marshals to an object with
its keys in sorted order (Go's `json.Marshal` sorts map keys). -/
def encodeMap (f : V → Json) (m : GoMap V) : Json :=
  match m with
  | none => .null
  | some l =>
    .obj ((List.insertionSort (fun a b => a.1 ≤ b.1) l).map (fun kv => (kv.1, f kv.2)))

/-- A nil slice marshals to `null`, an allocated one to an array. -/
def encodeList (f : V → Json) (l : Option (List V)) : Json :=
  match l with
  | none => .null
  | some xs => .arr (xs.map f)

def encodeProject (p : Project) : Json :=
  .obj [("id", .str p.id), ("name", .str p.name),
    ("createdAt", encodeTime p.createdAt),
    ("lastActivity", encodeTime p.lastActivity),
    ("quests", encodeMap encodeQuest p.quests),
    ("history", encodeList encodeHistoryEntry p.history),
    ("totalXp", .num p.totalXP), ("isArchived", .bool p.isArchived)]

def encodePlayer (p : Player) : Json :=
  .obj [("classes", encodeMap encodeClass p.classes),
    ("projects", encodeMap encodeProject p.projects)]

/-- Embedding of `mustMarshal` (`src/main.go` lines 331-339).  Marshaling a `Player`
cannot fail (every field type is representable), so the logged fallback
branch of the source is unreachable; the serialized form is modelled by its
JSON tree (the text rendering of the tree is injective and elided). -/
def mustMarshal (p : Player) : Json := encodePlayer p

/-! ### Unmarshaling (`json.Unmarshal` on this program's types)

Absent fields and `null` fields leave the zero value untouched; mismatched
shapes fail.  Go resolves duplicate object keys last-wins; the encoder above
never emits a duplicate key, and for unique keys first-wins lookup agrees. -/

/-- The value of field `k`: an absent field behaves like `null` (no effect). -/
def getField (kvs : List (String × Json)) (k : String) : Json :=
  (kvs.lookup k).getD .null

def asStringD (j : Json) (dflt : String) : Except String String :=
  match j with
  | .null => .ok dflt
  | .str s => .ok s
  | _ => .error "json: type mismatch for string field"

def asIntD (j : Json) (dflt : ℤ) : Except String ℤ :=
  match j with
  | .null => .ok dflt
  | .num n => .ok n
  | _ => .error "json: type mismatch for int field"

def asBoolD (j : Json) (dflt : Bool) : Except String Bool :=
  match j with
  | .null => .ok dflt
  | .bool b => .ok b
  | _ => .error "json: type mismatch for bool field"

def asTimeD (j : Json) (dflt : Time) : Except String Time :=
  asIntD j dflt

/-- Unmarshal an object into a map field: `null` leaves the map nil, an
object allocates a map and inserts every decoded entry in text order. -/
def unmarshalMapD (f : Json → Except String V) (j : Json) :
    Except String (GoMap V) :=
  match j with
  | .null => .ok none
  | .obj kvs =>
    kvs.foldlM (fun m kv => (f kv.2).map (fun v => mapInsert m kv.1 v))
      (some ([] : List (String × V)))
  | _ => .error "json: type mismatch for map field"

/-- Unmarshal an array into a slice field: `null` leaves the slice nil. -/
def unmarshalListD (f : Json → Except String V) (j : Json) :
    Except String (Option (List V)) :=
  match j with
  | .null => .ok none
  | .arr xs => (xs.mapM f).map some
  | _ => .error "json: type mismatch for slice field"

def unmarshalClass (j : Json) : Except String Class :=
  match j with
  | .null => .ok zeroClass
  | .obj kvs => do
    let id ← asStringD (getField kvs "id") zeroClass.id
    let name ← asStringD (getField kvs "name") zeroClass.name
    let color ← asStringD (getField kvs "color") zeroClass.color
    let level ← asIntD (getField kvs "level") zeroClass.level
    let xp ← asIntD (getField kvs "xp") zeroClass.xp
    let xpToNextLevel ← asIntD (getField kvs "xpToNextLevel") zeroClass.xpToNextLevel
    pure ⟨id, name, color, level, xp, xpToNextLevel⟩
  | _ => .error "json: cannot unmarshal into Class"

def unmarshalQuest (j : Json) : Except String Quest :=
  match j with
  | .null => .ok zeroQuest
  | .obj kvs => do
    let id ← asStringD (getField kvs "id") zeroQuest.id
    let name ← asStringD (getField kvs "name") zeroQuest.name
    let classId ← asStringD (getField kvs "classId") zeroQuest.classId
    let xp ← asIntD (getField kvs "xp") zeroQuest.xp
    pure ⟨id, name, classId, xp⟩
  | _ => .error "json: cannot unmarshal into Quest"

def unmarshalHistoryEntry (j : Json) : Except String HistoryEntry :=
  match j with
  | .null => .ok zeroHistoryEntry
  | .obj kvs => do
    let questName ← asStringD (getField kvs "questName") zeroHistoryEntry.questName
    let classId ← asStringD (getField kvs "classId") zeroHistoryEntry.classId
    let xp ← asIntD (getField kvs "xp") zeroHistoryEntry.xp
    let completedAt ← asTimeD (getField kvs "completedAt") zeroHistoryEntry.completedAt
    pure ⟨questName, classId, xp, completedAt⟩
  | _ => .error "json: cannot unmarshal into HistoryEntry"

def unmarshalProject (j : Json) : Except String Project :=
  match j with
  | .null => .ok zeroProject
  | .obj kvs => do
    let id ← asStringD (getField kvs "id") zeroProject.id
    let name ← asStringD (getField kvs "name") zeroProject.name
    let createdAt ← asTimeD (getField kvs "createdAt") zeroProject.createdAt
    let lastActivity ← asTimeD (getField kvs "lastActivity") zeroProject.lastActivity
    let quests ← unmarshalMapD unmarshalQuest (getField kvs "quests")
    let history ← unmarshalListD unmarshalHistoryEntry (getField kvs "history")
    let totalXP ← asIntD (getField kvs "totalXp") zeroProject.totalXP
    let isArchived ← asBoolD (getField kvs "isArchived") zeroProject.isArchived
    pure ⟨id, name, createdAt, lastActivity, quests, history, totalXP, isArchived⟩
  | _ => .error "json: cannot unmarshal into Project"

def unmarshalPlayer (j : Json) : Except String Player :=
  match j with
  | .null => .ok zeroPlayer
  | .obj kvs => do
    let classes ← unmarshalMapD unmarshalClass (getField kvs "classes")
    let projects ← unmarshalMapD unmarshalProject (getField kvs "projects")
    pure ⟨classes, projects⟩
  | _ => .error "json: cannot unmarshal into Player"

/-! ### Load and normalization (`loadPlayerData`, `src/main.go` lines 116-160) -/

/-- The nested-container normalization of `loadPlayerData` (lines 147-156):
a nil quests map and a nil history slice are replaced with empty ones. -/
def normalizeProject (proj : Project) : Project :=
  let quests := match proj.quests with
    | none => some ([] : List (String × Quest))
    | some qs => some qs
  let history := match proj.history with
    | none => some ([] : List HistoryEntry)
    | some h => some h
  { proj with quests := quests, history := history }

/-- The top-level normalization of `loadPlayerData` (lines 139-156): nil
classes/projects maps are replaced with empty ones, and every project in the
projects map is normalized and written back under its id. -/
def normalizePlayer (loadedPlayer : Player) : Player :=
  let classes := match loadedPlayer.classes with
    | none => some ([] : List (String × Class))
    | some cs => some cs
  let projects := match loadedPlayer.projects with
    | none => some ([] : List (String × Project))
    | some ps => some ps
  { classes := classes,
    projects := projects.map (fun ps => ps.map (fun kv => (kv.1, normalizeProject kv.2))) }

/-- The parse-plus-normalization step of `loadPlayerData` (lines 131-158):
an unmarshal error falls back to a fresh player, success is normalized. -/
def decodePlayerJson (j : Json) : Player :=
  match unmarshalPlayer j with
  | .error _ => emptyPlayer
  | .ok loadedPlayer => normalizePlayer loadedPlayer

/-- Embedding of `loadPlayerData` (lines 116-160).  `parse` is the text-level lexer of
`encoding/json` (library code, not part of this repository), producing the
value tree of a well-formed text or an error for malformed text. -/
def loadPlayerData (parse : String → Except String Json) (jsonString : String) :
    Player :=
  if jsonString == "" || jsonString == "null" || jsonString == "\x7b\x7d" then
    emptyPlayer
  else
    match parse jsonString with
    | .error _ => emptyPlayer
    | .ok j => decodePlayerJson j

/-- Every container of the player is allocated (never nil): what the
normalization of `loadPlayerData` is meant to guarantee. -/
def projectContainersPresent (proj : Project) : Prop :=
  proj.quests ≠ none ∧ proj.history ≠ none

def playerContainersPresent (p : Player) : Prop :=
  p.classes ≠ none ∧ p.projects ≠ none ∧
    ∀ kv ∈ p.projects.getD [], projectContainersPresent kv.2

/-- A map value in canonical form: allocated, and with its entry list sorted
strictly by key.  Two Go maps are equal iff their canonical entry lists are
equal, so "structural equality of players" is stated on canonical states. -/
def mapCanonical (m : GoMap V) : Prop :=
  match m with
  | none => False
  | some l => (l.map Prod.fst).Sorted (· < ·)

def projectCanonical (proj : Project) : Prop :=
  mapCanonical proj.quests ∧ proj.history ≠ none

def playerCanonical (p : Player) : Prop :=
  mapCanonical p.classes ∧ mapCanonical p.projects ∧
    ∀ kv ∈ p.projects.getD [], projectCanonical kv.2

/-! ## State-mutating commands -/

/-- Embedding of `addQuestToProject` (`src/main.go` lines 211-251).  The generated
`uuid.NewString()` and `time.Now()` are inputs of the embedding. -/
def addQuestToProject (player : Player) (projectID classID questName : String)
    (hours : ℤ) (newQuestId : String) (now : Time) : Player :=
  match mapLookup player.projects projectID with
  | none => player
  | some project =>
    match mapLookup player.classes classID with
    | none => player
    | some _ =>
      if hours ≤ 0 then player
      else
        let newQuest : Quest := ⟨newQuestId, questName, classID, hours⟩
        let project :=
          { project with
            quests := mapInsert project.quests newQuest.id newQuest
            lastActivity := now }
        { player with projects := mapInsert player.projects projectID project }

/-- Embedding of `completeQuest` (`src/main.go` lines 254-306). -/
noncomputable def completeQuest (player : Player) (projectID questID : String)
    (now : Time) : Player :=
  match mapLookup player.projects projectID with
  | none => player
  | some project =>
    match mapLookup project.quests questID with
    | none => player
    | some quest =>
      let historyEntry : HistoryEntry := ⟨quest.name, quest.classId, quest.xp, now⟩
      let history := match project.history with
        | none => ([] : List HistoryEntry)
        | some h => h
      let project :=
        { project with
          history := some (history ++ [historyEntry])
          totalXP := project.totalXP + quest.xp
          quests := mapErase project.quests questID
          lastActivity := now }
      let player := { player with projects := mapInsert player.projects projectID project }
      match mapLookup player.classes quest.classId with
      | some cls =>
        let cls := internal_checkClassLevelUp { cls with xp := cls.xp + quest.xp }
        { player with classes := mapInsert player.classes quest.classId cls }
      | none => player

/-- Duration `time.Hour * 24 * 30` in nanoseconds (`src/main.go` line 313). -/
def thirtyDays : Time := 3600 * 1000000000 * 24 * 30

/-- Embedding of `archiveInactiveProjects` (`src/main.go` lines 309-325). -/
def archiveInactiveProjects (player : Player) (now : Time) : Player :=
  { player with
    projects := player.projects.map (fun ps => ps.map (fun kv =>
      let project := kv.2
      if !project.isArchived ∧ now - project.lastActivity > thirtyDays then
        (kv.1, { project with isArchived := true })
      else
        (kv.1, project))) }

/-! ## Map-operation lemmas -/

lemma lookup_filter_ne (l : List (String × V)) (k : String) :
    (l.filter (fun kv => kv.1 != k)).lookup k = none := by
  induction l with
  | nil => rfl
  | cons kv rest ih =>
    by_cases h : kv.1 = k
    · simp only [List.filter_cons, h, bne_self_eq_false, cond_false]
      exact ih
    · simp only [List.filter_cons, bne, beq_eq_false_iff_ne.mpr h, Bool.not_false, cond_true,
        List.lookup, beq_eq_false_iff_ne.mpr (Ne.symm h)]
      exact ih

lemma mapLookup_mapErase_self (m : GoMap V) (k : String) :
    mapLookup (mapErase m k) k = none := by
  cases m with
  | none => rfl
  | some l => exact lookup_filter_ne l k

lemma lookup_append_self (l : List (String × V)) (k : String) (v : V)
    (h : ∀ kv ∈ l, kv.1 ≠ k) : (l ++ [(k, v)]).lookup k = some v := by
  induction l with
  | nil => simp [List.lookup]
  | cons kv rest ih =>
    have hk : kv.1 ≠ k := h kv (by simp)
    simp only [List.cons_append, List.lookup, beq_eq_false_iff_ne.mpr (Ne.symm hk)]
    exact ih (fun x hx => h x (by simp [hx]))

lemma mapLookup_mapInsert_self (m : GoMap V) (k : String) (v : V) :
    mapLookup (mapInsert m k v) k = some v := by
  show ((m.getD []).filter (fun kv => kv.1 != k) ++ [(k, v)]).lookup k = some v
  apply lookup_append_self
  intro kv hkv
  have := List.of_mem_filter hkv
  exact bne_iff_ne.mp this

/-! ## Normalization lemmas -/

lemma normalizeProject_present (proj : Project) :
    projectContainersPresent (normalizeProject proj) := by
  unfold normalizeProject projectContainersPresent
  cases proj.quests <;> cases proj.history <;> simp

lemma normalizePlayer_classes (loadedPlayer : Player) :
    (normalizePlayer loadedPlayer).classes = some (loadedPlayer.classes.getD []) := by
  rcases hc : loadedPlayer.classes with _ | cs <;> simp [normalizePlayer, hc]

lemma normalizePlayer_projects (loadedPlayer : Player) :
    (normalizePlayer loadedPlayer).projects =
      some ((loadedPlayer.projects.getD []).map
        (fun kv => (kv.1, normalizeProject kv.2))) := by
  rcases hp : loadedPlayer.projects with _ | ps <;> simp [normalizePlayer, hp]

lemma normalizePlayer_present (loadedPlayer : Player) :
    playerContainersPresent (normalizePlayer loadedPlayer) := by
  refine ⟨?_, ?_, ?_⟩
  · rw [normalizePlayer_classes]; simp
  · rw [normalizePlayer_projects]; simp
  · intro kv hkv
    rw [normalizePlayer_projects] at hkv
    simp only [Option.getD_some, List.mem_map] at hkv
    obtain ⟨kv', _, rfl⟩ := hkv
    exact normalizeProject_present kv'.2

lemma emptyPlayer_present : playerContainersPresent emptyPlayer := by
  refine ⟨by simp [emptyPlayer], by simp [emptyPlayer], ?_⟩
  intro kv hkv
  simp [emptyPlayer] at hkv

/-! ## Round-trip lemmas for the codec -/

lemma unmarshalClass_encodeClass (c : Class) :
    unmarshalClass (encodeClass c) = .ok c := rfl

lemma unmarshalQuest_encodeQuest (q : Quest) :
    unmarshalQuest (encodeQuest q) = .ok q := rfl

lemma unmarshalHistoryEntry_encodeHistoryEntry (e : HistoryEntry) :
    unmarshalHistoryEntry (encodeHistoryEntry e) = .ok e := rfl

lemma exceptMap_ok (f : A → B) (x : A) :
    Except.map f (Except.ok x : Except String A) = Except.ok (f x) := rfl

lemma exceptBind_ok (x : A) (f : A → Except String B) :
    (Except.ok x : Except String A) >>= f = f x := rfl

lemma mapM_roundtrip (g : Json → Except String V) (f : V → Json) :
    ∀ xs : List V, (∀ x ∈ xs, g (f x) = .ok x) →
      (xs.map f).mapM g = Except.ok xs := by
  intro xs
  induction xs with
  | nil => intro _; rfl
  | cons x rest ih =>
    intro h
    rw [List.map_cons, List.mapM_cons, h x (by simp), ih (fun y hy => h y (by simp [hy]))]
    rfl

lemma foldlM_mapInsert_roundtrip (g : Json → Except String V) (f : V → Json) :
    ∀ l acc : List (String × V),
      (∀ kv ∈ l, g (f kv.2) = .ok kv.2) →
      (∀ kv ∈ l, ∀ kv' ∈ acc, kv'.1 ≠ kv.1) →
      l.Pairwise (fun a b => a.1 ≠ b.1) →
      List.foldlM (fun m kv => (g kv.2).map (fun v => mapInsert m kv.1 v))
        (some acc) (l.map (fun kv => (kv.1, f kv.2))) = .ok (some (acc ++ l)) := by
  intro l
  induction l with
  | nil =>
    intro acc _ _ _
    show Except.ok (some acc) = Except.ok (some (acc ++ []))
    rw [List.append_nil]
  | cons kv rest ih =>
    intro acc hfg hacc hpair
    rw [List.map_cons, List.foldlM_cons, hfg kv (by simp)]
    have hfilter : acc.filter (fun kv' => kv'.1 != kv.1) = acc :=
      List.filter_eq_self.mpr (fun a ha => bne_iff_ne.mpr (hacc kv (by simp) a ha))
    have hstep : mapInsert (some acc) kv.1 kv.2 = some (acc ++ [(kv.1, kv.2)]) := by
      unfold mapInsert
      rw [Option.getD_some, hfilter]
    simp only [exceptMap_ok, hstep, exceptBind_ok]
    have hrest := ih (acc ++ [(kv.1, kv.2)])
      (fun x hx => hfg x (by simp [hx]))
      (fun x hx y hy => by
        rcases List.mem_append.mp hy with hy | hy
        · exact hacc x (by simp [hx]) y hy
        · have hkx : kv.1 ≠ x.1 := (List.pairwise_cons.mp hpair).1 x hx
          simp at hy
          rw [hy]
          exact hkx)
      ((List.pairwise_cons.mp hpair).2)
    rw [hrest]
    simp

lemma sortedKeys_pairwise_ne {V : Type} (l : List (String × V))
    (hsort : (l.map Prod.fst).Sorted (· < ·)) :
    l.Pairwise (fun a b => a.1 ≠ b.1) :=
  (List.pairwise_map.mp hsort).imp (fun h => ne_of_lt h)

lemma unmarshalMapD_encodeMap (g : Json → Except String V) (f : V → Json)
    (l : List (String × V)) (hfg : ∀ kv ∈ l, g (f kv.2) = .ok kv.2)
    (hsort : (l.map Prod.fst).Sorted (· < ·)) :
    unmarshalMapD g (encodeMap f (some l)) = .ok (some l) := by
  have hpair : l.Pairwise (fun a b => a.1 ≤ b.1) :=
    (List.pairwise_map.mp hsort).imp (fun h => le_of_lt h)
  have hsorted_eq : List.insertionSort (fun a b => a.1 ≤ b.1) l = l :=
    List.Sorted.insertionSort_eq hpair
  show unmarshalMapD g
      (.obj ((List.insertionSort (fun a b => a.1 ≤ b.1) l).map
        (fun kv => (kv.1, f kv.2)))) = .ok (some l)
  rw [hsorted_eq]
  show List.foldlM (fun m kv => (g kv.2).map (fun v => mapInsert m kv.1 v))
      (some []) (l.map (fun kv => (kv.1, f kv.2))) = .ok (some l)
  rw [foldlM_mapInsert_roundtrip g f l [] hfg (by intro kv _ kv' h; simp at h)
    (sortedKeys_pairwise_ne l hsort)]
  simp

lemma unmarshalListD_encodeList (g : Json → Except String V) (f : V → Json)
    (xs : List V) (hfg : ∀ x ∈ xs, g (f x) = .ok x) :
    unmarshalListD g (encodeList f (some xs)) = .ok (some xs) := by
  show ((xs.map f).mapM g).map some = .ok (some xs)
  rw [mapM_roundtrip g f xs hfg]
  rfl

lemma unmarshalProject_encodeProject (p : Project) (lq : List (String × Quest))
    (hq : p.quests = some lq) (hqs : (lq.map Prod.fst).Sorted (· < ·))
    (lh : List HistoryEntry) (hh : p.history = some lh) :
    unmarshalProject (encodeProject p) = .ok p := by
  have h1 : unmarshalMapD unmarshalQuest (encodeMap encodeQuest p.quests) =
      .ok p.quests := by
    rw [hq]
    exact unmarshalMapD_encodeMap _ _ lq (fun kv _ => unmarshalQuest_encodeQuest kv.2) hqs
  have h2 : unmarshalListD unmarshalHistoryEntry
      (encodeList encodeHistoryEntry p.history) = .ok p.history := by
    rw [hh]
    exact unmarshalListD_encodeList _ _ lh
      (fun x _ => unmarshalHistoryEntry_encodeHistoryEntry x)
  have hmain : unmarshalProject (encodeProject p) =
      Except.bind (unmarshalMapD unmarshalQuest (encodeMap encodeQuest p.quests))
        (fun quests =>
          Except.bind
            (unmarshalListD unmarshalHistoryEntry
              (encodeList encodeHistoryEntry p.history))
            (fun history =>
              Except.ok ⟨p.id, p.name, p.createdAt, p.lastActivity, quests, history,
                p.totalXP, p.isArchived⟩)) := rfl
  rw [hmain, h1, h2]
  rfl

lemma unmarshalPlayer_encodePlayer (p : Player)
    (lc : List (String × Class)) (hc : p.classes = some lc)
    (hcs : (lc.map Prod.fst).Sorted (· < ·))
    (lp : List (String × Project)) (hp : p.projects = some lp)
    (hps : (lp.map Prod.fst).Sorted (· < ·))
    (hproj : ∀ kv ∈ lp, unmarshalProject (encodeProject kv.2) = .ok kv.2) :
    unmarshalPlayer (encodePlayer p) = .ok p := by
  have h1 : unmarshalMapD unmarshalClass (encodeMap encodeClass p.classes) =
      .ok p.classes := by
    rw [hc]
    exact unmarshalMapD_encodeMap _ _ lc (fun kv _ => unmarshalClass_encodeClass kv.2) hcs
  have h2 : unmarshalMapD unmarshalProject (encodeMap encodeProject p.projects) =
      .ok p.projects := by
    rw [hp]
    exact unmarshalMapD_encodeMap _ _ lp hproj hps
  have hmain : unmarshalPlayer (encodePlayer p) =
      Except.bind (unmarshalMapD unmarshalClass (encodeMap encodeClass p.classes))
        (fun classes =>
          Except.bind
            (unmarshalMapD unmarshalProject (encodeMap encodeProject p.projects))
            (fun projects => Except.ok ⟨classes, projects⟩)) := rfl
  rw [hmain, h1, h2]
  rfl

lemma mapCanonical_ne_none (m : GoMap V) (h : mapCanonical m) : m ≠ none := by
  rcases m with _ | l
  · simp [mapCanonical] at h
  · simp

lemma normalizeProject_of_present (proj : Project) (h1 : proj.quests ≠ none)
    (h2 : proj.history ≠ none) : normalizeProject proj = proj := by
  unfold normalizeProject
  rcases hq : proj.quests with _ | qs
  · exact absurd hq h1
  rcases hh : proj.history with _ | hs
  · exact absurd hh h2
  simp only [hq, hh]
  rw [← hq, ← hh]

lemma normalizePlayer_of_canonical (p : Player) (h : playerCanonical p) :
    normalizePlayer p = p := by
  obtain ⟨hc, hp, hproj⟩ := h
  rcases hcc : p.classes with _ | cs
  · rw [hcc] at hc; simp [mapCanonical] at hc
  rcases hpp : p.projects with _ | ps
  · rw [hpp] at hp; simp [mapCanonical] at hp
  rw [hpp] at hproj
  simp only [Option.getD_some] at hproj
  have hmap : ∀ l : List (String × Project), (∀ kv ∈ l, projectCanonical kv.2) →
      l.map (fun kv => (kv.1, normalizeProject kv.2)) = l := by
    intro l
    induction l with
    | nil => intro _; rfl
    | cons kv rest ih =>
      intro hl
      rw [List.map_cons, ih (fun x hx => hl x (by simp [hx]))]
      obtain ⟨hq, hh⟩ := hl kv (by simp)
      rw [normalizeProject_of_present kv.2 (mapCanonical_ne_none kv.2.quests hq) hh]
  have h1 : (normalizePlayer p).classes = p.classes := by
    rw [normalizePlayer_classes, hcc]
    rfl
  have h2 : (normalizePlayer p).projects = p.projects := by
    rw [normalizePlayer_projects, hpp]
    simp only [Option.getD_some]
    rw [hmap ps hproj]
  have heta : normalizePlayer p =
      ⟨(normalizePlayer p).classes, (normalizePlayer p).projects⟩ := rfl
  rw [heta, h1, h2]

/-! ## Claims about the progression calculator -/

/-- C1: for every class whose fields satisfy the data-model bounds
(`level ≥ 1`, `xp ≥ 0`, `xpToNextLevel > 0`) and every XP gain `≥ 0`, after
`resolveLevelUp` (`internal_checkClassLevelUp` applied after adding the gain
to `xp`) the invariant `0 ≤ xp < xpToNextLevel` holds on the result. -/
theorem resolveLevelUp_invariant (c : Class) (gain : ℤ)
    (_hlevel : 1 ≤ c.level) (hxp : 0 ≤ c.xp) (ht : 0 < c.xpToNextLevel)
    (hgain : 0 ≤ gain) :
    0 ≤ (internal_checkClassLevelUp { c with xp := c.xp + gain }).xp ∧
      (internal_checkClassLevelUp { c with xp := c.xp + gain }).xp <
        (internal_checkClassLevelUp { c with xp := c.xp + gain }).xpToNextLevel :=
  internal_checkClassLevelUp_bounds (c.xp + gain).toNat _ (le_refl _)
    (by simp only []; omega) ht

/-- Witness for C1 at a concrete class (level 1, xp 0, threshold 10, gain 34). -/
theorem resolveLevelUp_invariant_witness :
    0 ≤ (internal_checkClassLevelUp ⟨"c1", "n", "x", 1, 34, 10⟩).xp ∧
      (internal_checkClassLevelUp ⟨"c1", "n", "x", 1, 34, 10⟩).xp <
        (internal_checkClassLevelUp ⟨"c1", "n", "x", 1, 34, 10⟩).xpToNextLevel :=
  resolveLevelUp_invariant ⟨"c1", "n", "x", 1, 0, 10⟩ 34 (by norm_num) (by norm_num)
    (by norm_num) (by norm_num)

/-- C2: a class at level 1 with `xp = 0` and `xpToNextLevel = xpForLevel(1)`,
awarded `xpForLevel(1) + xpForLevel(2) + 5` XP in one resolution, ends at
level 3 with `xp = 5` and `xpToNextLevel = xpForLevel(3)`. -/
theorem multiLevelUp_two_levels (id name color : String) :
    internal_checkClassLevelUp
      { id := id, name := name, color := color, level := 1,
        xp := 0 + (calculateXPForLevel 1 + calculateXPForLevel 2 + 5),
        xpToNextLevel := calculateXPForLevel 1 } =
      { id := id, name := name, color := color, level := 3, xp := 5,
        xpToNextLevel := calculateXPForLevel 3 } := by
  rw [calculateXPForLevel_one, calculateXPForLevel_two]
  rw [internal_checkClassLevelUp]
  rw [dif_pos (by norm_num)]
  simp only [levelUpStep]
  norm_num
  rw [calculateXPForLevel_two]
  rw [internal_checkClassLevelUp]
  rw [dif_pos (by norm_num)]
  simp only [levelUpStep]
  norm_num
  rw [internal_checkClassLevelUp]
  rw [dif_neg (by rw [calculateXPForLevel_three]; norm_num)]

/-- Under the exact-real idealization of the XP curve, the level-up loop
behaves as the spec describes: one loop iteration strictly decreases `xp`
(it subtracts the positive threshold), and a fuel of `xp + 1` iterations is
enough for the fuel-instrumented loop to finish and agree with
`internal_checkClassLevelUp`.  This is the intended mechanism; the float64
program violates it at levels above `2^53` (see
`levelUpLoop_float64_stalls`). -/
theorem levelUpLoop_terminates (c : Class) (gain : ℤ) (ht : 0 < c.xpToNextLevel) :
    (c.xpToNextLevel ≤ c.xp + gain →
        (levelUpStep { c with xp := c.xp + gain }).xp < c.xp + gain) ∧
      checkClassLevelUpFuel ((c.xp + gain).toNat + 1) { c with xp := c.xp + gain } =
        some (internal_checkClassLevelUp { c with xp := c.xp + gain }) := by
  constructor
  · intro hle
    simp only [levelUpStep]
    omega
  · exact checkClassLevelUpFuel_eq _ _ (Nat.lt_succ_self _) ht

/-- Instance of `levelUpLoop_terminates` at a concrete class (threshold 10,
gain 34). -/
theorem levelUpLoop_terminates_witness :
    ((10 : ℤ) ≤ 34 → (levelUpStep ⟨"c8", "n", "x", 1, 34, 10⟩).xp < 34) ∧
      checkClassLevelUpFuel 35 ⟨"c8", "n", "x", 1, 34, 10⟩ =
        some (internal_checkClassLevelUp ⟨"c8", "n", "x", 1, 34, 10⟩) :=
  levelUpLoop_terminates ⟨"c8", "n", "x", 1, 0, 10⟩ 34 (by norm_num)

/-- Under the exact-real idealization of the XP curve, `calculateXPForLevel`
is strictly positive for every integer level (levels below 1 being clamped
to 1).  This is the positivity the spec intends; the float64 program
violates it at levels above `2^53` (see `xpForLevel_float64_zero`). -/
theorem xpForLevel_pos (level : ℤ) : 0 < calculateXPForLevel level :=
  calculateXPForLevel_pos level

/-- C8 (code bug): under float64 semantics the level-up loop does not
subtract a positive threshold on every iteration.  From the loadable class
state `{level = 2^54, xp = 100, xpToNextLevel = 10}` (gain already added):
the first iteration recomputes the threshold at level `2^54 + 1` as 0 — not
positive — the loop guard `threshold ≤ xp` still holds, and the next
iteration subtracts 0, leaving `xp` unchanged, so `xp` does not strictly
decrease and the `xp + 1` fuel bound fails.  `curve` ranges over every
possible rounding behaviour of the float64 routine
`10.0 * math.Pow(., 1.5)`, so this holds for Go's actual one. -/
theorem levelUpLoop_float64_stalls (curve : ℤ → ℚ) :
    (levelUpStepFloat curve
        { id := "c8", name := "n", color := "x", level := 2 ^ 54, xp := 100,
          xpToNextLevel := 10 }).xpToNextLevel = 0 ∧
      (levelUpStepFloat curve
          { id := "c8", name := "n", color := "x", level := 2 ^ 54, xp := 100,
            xpToNextLevel := 10 }).xpToNextLevel ≤
        (levelUpStepFloat curve
          { id := "c8", name := "n", color := "x", level := 2 ^ 54, xp := 100,
            xpToNextLevel := 10 }).xp ∧
      (levelUpStepFloat curve
          (levelUpStepFloat curve
            { id := "c8", name := "n", color := "x", level := 2 ^ 54, xp := 100,
              xpToNextLevel := 10 })).xp =
        (levelUpStepFloat curve
          { id := "c8", name := "n", color := "x", level := 2 ^ 54, xp := 100,
            xpToNextLevel := 10 }).xp := by
  refine ⟨?_, ?_, ?_⟩ <;>
    norm_num [levelUpStepFloat, calculateXPForLevelFloat_collapse]

/-- C9 (code bug): at level `2^54 + 1` the source returns 0, not a positive
integer.  `float64(2^54 + 1)` rounds to `float64(2^54)` — the `int → float64`
conversion is fully specified by IEEE 754 — so both totals are computed by
the same float64 routine on bit-identical arguments, their difference is
exactly `0.0` whatever `math.Pow`'s rounding (`curve` ranges over every
possible rounding behaviour of `10.0 * math.Pow(., 1.5)`), and
`int(math.Ceil(0.0)) = 0`. -/
theorem xpForLevel_float64_zero (curve : ℤ → ℚ) :
    calculateXPForLevelFloat curve (2 ^ 54 + 1) = 0 := by
  rw [show ((2 : ℤ) ^ 54 + 1) = 18014398509481985 by norm_num]
  exact calculateXPForLevelFloat_collapse curve

/-! ## Claims about the codec and the commands -/

/-- C3: `loadPlayerData` returns a freshly initialized empty player for the
empty string, the literal `null`, the empty-object literal, and for any
malformed text (any text the JSON lexer rejects); and whatever the input,
every container of the returned player is allocated: absent/nil classes,
projects, per-project quests and history are all replaced with empty ones. -/
theorem loadPlayerData_failSoft (parse : String → Except String Json) :
    loadPlayerData parse "" = emptyPlayer ∧
    loadPlayerData parse "null" = emptyPlayer ∧
    loadPlayerData parse "\x7b\x7d" = emptyPlayer ∧
    (∀ s e, parse s = .error e → loadPlayerData parse s = emptyPlayer) ∧
    (∀ s, playerContainersPresent (loadPlayerData parse s)) := by
  refine ⟨rfl, rfl, rfl, ?_, ?_⟩
  · intro s e hpe
    unfold loadPlayerData
    split
    · rfl
    · rw [hpe]
  · intro s
    unfold loadPlayerData
    split
    · exact emptyPlayer_present
    · cases hps : parse s with
      | error e => exact emptyPlayer_present
      | ok j =>
        show playerContainersPresent (decodePlayerJson j)
        unfold decodePlayerJson
        cases hup : unmarshalPlayer j with
        | error e => exact emptyPlayer_present
        | ok loadedPlayer => exact normalizePlayer_present loadedPlayer

/-- Witness for C3: a lexer that rejects the input makes load fall back to a
fresh empty player. -/
theorem loadPlayerData_failSoft_witness :
    loadPlayerData (fun _ => Except.error "malformed") "garbage" = emptyPlayer :=
  (loadPlayerData_failSoft (fun _ => Except.error "malformed")).2.2.2.1
    "garbage" "malformed" rfl

/-- C5: `addQuestToProject` with an unknown project, an unknown class, or
non-positive hours performs no mutation: the player state is returned
unchanged, and the returned serialization is of that unchanged state. -/
theorem addQuest_rejects (player : Player) (projectID classID questName : String)
    (hours : ℤ) (newQuestId : String) (now : Time)
    (h : mapLookup player.projects projectID = none ∨
      mapLookup player.classes classID = none ∨ hours ≤ 0) :
    addQuestToProject player projectID classID questName hours newQuestId now = player ∧
      mustMarshal (addQuestToProject player projectID classID questName hours newQuestId now) =
        mustMarshal player := by
  have heq : addQuestToProject player projectID classID questName hours newQuestId now
      = player := by
    unfold addQuestToProject
    rcases h with h | h | h
    · rw [h]
    · split
      · rfl
      · rw [h]
    · split
      · rfl
      · split
        · rfl
        · rw [if_pos h]
  exact ⟨heq, by rw [heq]⟩

/-- Witness for C5: adding a quest to a project id that does not exist in an
empty state changes nothing. -/
theorem addQuest_rejects_witness :
    addQuestToProject emptyPlayer "p" "c" "fix bug" 3 "u" 0 = emptyPlayer ∧
      mustMarshal (addQuestToProject emptyPlayer "p" "c" "fix bug" 3 "u" 0) =
        mustMarshal emptyPlayer :=
  addQuest_rejects emptyPlayer "p" "c" "fix bug" 3 "u" 0 (Or.inl rfl)

lemma completeQuest_success_projects (player : Player) (projectID questID : String)
    (now : Time) (project : Project) (quest : Quest)
    (hp : mapLookup player.projects projectID = some project)
    (hq : mapLookup project.quests questID = some quest) :
    (completeQuest player projectID questID now).projects =
      mapInsert player.projects projectID
        { project with
          history := some (project.history.getD [] ++
            [⟨quest.name, quest.classId, quest.xp, now⟩])
          totalXP := project.totalXP + quest.xp
          quests := mapErase project.quests questID
          lastActivity := now } := by
  unfold completeQuest
  simp only [hp, hq]
  cases hh : project.history <;>
    cases hcl : mapLookup player.classes quest.classId <;>
      simp [hh, hcl]

lemma completeQuest_noQuest (player : Player) (projectID questID : String)
    (now : Time) (project : Project)
    (hp : mapLookup player.projects projectID = some project)
    (hq : mapLookup project.quests questID = none) :
    completeQuest player projectID questID now = player := by
  unfold completeQuest
  simp only [hp, hq]

/-- C6: completing the same `(projectId, questId)` twice leaves the state
after the second call equal to the state after the first: the second call no
longer finds the quest and is a no-op, so the XP is awarded exactly once. -/
theorem completeQuest_idempotent (player : Player) (projectID questID : String)
    (n1 n2 : Time) (project : Project) (quest : Quest)
    (hp : mapLookup player.projects projectID = some project)
    (hq : mapLookup project.quests questID = some quest) :
    completeQuest (completeQuest player projectID questID n1) projectID questID n2 =
      completeQuest player projectID questID n1 := by
  have hproj := completeQuest_success_projects player projectID questID n1 project quest hp hq
  apply completeQuest_noQuest
  · rw [hproj]
    exact mapLookup_mapInsert_self _ _ _
  · exact mapLookup_mapErase_self project.quests questID

/-- Witness for C6 at a one-project, one-quest state. -/
theorem completeQuest_idempotent_witness :
    completeQuest
        (completeQuest
          ⟨some [], some [("p", ⟨"p", "site", 0, 0, some [("q", ⟨"q", "fix", "c", 3⟩)],
            some [], 0, false⟩)]⟩ "p" "q" 1) "p" "q" 2 =
      completeQuest
        ⟨some [], some [("p", ⟨"p", "site", 0, 0, some [("q", ⟨"q", "fix", "c", 3⟩)],
          some [], 0, false⟩)]⟩ "p" "q" 1 :=
  completeQuest_idempotent _ "p" "q" 1 2 _ _ rfl rfl

/-- C7: after `archiveInactiveProjects` at time `now`, entry for entry, a
project is archived iff it was archived before or its `lastActivity` is more
than 30 days before `now`, and every other field is unchanged (in particular
no project is un-archived and no recently active project is archived). -/
theorem archiveInactiveProjects_spec (player : Player) (now : Time) :
    List.Forall₂ (fun kvOld kvNew =>
        kvNew.1 = kvOld.1 ∧
        (kvNew.2.isArchived ↔
          (kvOld.2.isArchived ∨ now - kvOld.2.lastActivity > thirtyDays)) ∧
        kvNew.2.id = kvOld.2.id ∧ kvNew.2.name = kvOld.2.name ∧
        kvNew.2.createdAt = kvOld.2.createdAt ∧
        kvNew.2.lastActivity = kvOld.2.lastActivity ∧
        kvNew.2.quests = kvOld.2.quests ∧ kvNew.2.history = kvOld.2.history ∧
        kvNew.2.totalXP = kvOld.2.totalXP)
      (player.projects.getD [])
      ((archiveInactiveProjects player now).projects.getD []) := by
  rcases hp : player.projects with _ | ps
  · simp [archiveInactiveProjects, hp]
  · simp only [archiveInactiveProjects, hp, Option.map_some', Option.getD_some]
    rw [List.forall₂_map_right_iff]
    rw [List.forall₂_same]
    intro kv _
    by_cases harch : kv.2.isArchived
    · rw [if_neg (by simp [harch])]
      simp [harch]
    · by_cases hold : now - kv.2.lastActivity > thirtyDays
      · rw [if_pos (by simp [harch, hold])]
        simp [harch, hold]
      · rw [if_neg (by simp [harch, hold])]
        simp [harch, hold]

/-- C10: a successful `completeQuest` appends the new history entry at the
end of the project's history, leaving every existing entry in place and in
order, so history is ordered oldest-completion-first. -/
theorem completeQuest_appendsHistory (player : Player) (projectID questID : String)
    (now : Time) (project : Project) (quest : Quest)
    (hp : mapLookup player.projects projectID = some project)
    (hq : mapLookup project.quests questID = some quest) :
    ∃ updated : Project,
      mapLookup (completeQuest player projectID questID now).projects projectID =
          some updated ∧
        updated.history = some (project.history.getD [] ++
          [⟨quest.name, quest.classId, quest.xp, now⟩]) := by
  refine ⟨{ project with
      history := some (project.history.getD [] ++
        [⟨quest.name, quest.classId, quest.xp, now⟩])
      totalXP := project.totalXP + quest.xp
      quests := mapErase project.quests questID
      lastActivity := now }, ?_, rfl⟩
  rw [completeQuest_success_projects player projectID questID now project quest hp hq]
  exact mapLookup_mapInsert_self _ _ _

/-- Witness for C10 at a one-project, one-quest state. -/
theorem completeQuest_appendsHistory_witness :
    ∃ updated : Project,
      mapLookup
          (completeQuest
            ⟨some [], some [("p", ⟨"p", "site", 0, 0, some [("q", ⟨"q", "fix", "c", 3⟩)],
              some [⟨"old", "c", 2, 0⟩], 0, false⟩)]⟩ "p" "q" 7).projects "p" =
          some updated ∧
        updated.history = some ([⟨"old", "c", 2, 0⟩] ++ [⟨"fix", "c", 3, 7⟩]) :=
  completeQuest_appendsHistory
    ⟨some [], some [("p", ⟨"p", "site", 0, 0, some [("q", ⟨"q", "fix", "c", 3⟩)],
      some [⟨"old", "c", 2, 0⟩], 0, false⟩)]⟩ "p" "q" 7
    ⟨"p", "site", 0, 0, some [("q", ⟨"q", "fix", "c", 3⟩)], some [⟨"old", "c", 2, 0⟩], 0, false⟩
    ⟨"q", "fix", "c", 3⟩ rfl rfl

/-- C4: decode-after-encode is the identity.  `encode` is `mustMarshal`
(= `encodePlayer`), `decode` is the parse-plus-normalization step of
`loadPlayerData`.  The player is taken in canonical map form — every
container allocated and every map's entry list strictly sorted by key, the
form in which a Go map is determined by its contents — which covers every
state the claim ranges over (non-empty classes/projects/quests/history). -/
theorem decode_encode_roundtrip (p : Player) (h : playerCanonical p) :
    decodePlayerJson (mustMarshal p) = p := by
  obtain ⟨hc, hp, hproj⟩ := h
  rcases hcc : p.classes with _ | cs
  · rw [hcc] at hc; simp [mapCanonical] at hc
  rcases hpp : p.projects with _ | ps
  · rw [hpp] at hp; simp [mapCanonical] at hp
  rw [hcc] at hc
  rw [hpp] at hp
  simp only [mapCanonical] at hc hp
  rw [hpp] at hproj
  simp only [Option.getD_some] at hproj
  have hun : unmarshalPlayer (encodePlayer p) = .ok p := by
    apply unmarshalPlayer_encodePlayer p cs hcc hc ps hpp hp
    intro kv hkv
    obtain ⟨hkq, hkh⟩ := hproj kv hkv
    rcases hqq : kv.2.quests with _ | qs
    · rw [hqq] at hkq; simp [mapCanonical] at hkq
    rcases hhh : kv.2.history with _ | hs
    · exact absurd hhh hkh
    rw [hqq] at hkq
    simp only [mapCanonical] at hkq
    exact unmarshalProject_encodeProject kv.2 qs hqq hkq hs hhh
  show decodePlayerJson (encodePlayer p) = p
  unfold decodePlayerJson
  rw [hun]
  exact normalizePlayer_of_canonical p
    ⟨by rw [hcc]; simpa [mapCanonical] using hc,
     by rw [hpp]; simpa [mapCanonical] using hp,
     by rw [hpp]; simpa using hproj⟩

/-- Witness for C4 at a one-class, one-project (one quest, one history entry)
canonical state. -/
theorem decode_encode_roundtrip_witness :
    decodePlayerJson (mustMarshal
        ⟨some [("c", ⟨"c", "Coding", "#fff", 1, 0, 10⟩)],
          some [("p", ⟨"p", "Site", 0, 0, some [("q", ⟨"q", "Fix", "c", 3⟩)],
            some [⟨"Old", "c", 2, 0⟩], 2, false⟩)]⟩) =
      ⟨some [("c", ⟨"c", "Coding", "#fff", 1, 0, 10⟩)],
        some [("p", ⟨"p", "Site", 0, 0, some [("q", ⟨"q", "Fix", "c", 3⟩)],
          some [⟨"Old", "c", 2, 0⟩], 2, false⟩)]⟩ :=
  decode_encode_roundtrip
    ⟨some [("c", ⟨"c", "Coding", "#fff", 1, 0, 10⟩)],
      some [("p", ⟨"p", "Site", 0, 0, some [("q", ⟨"q", "Fix", "c", 3⟩)],
        some [⟨"Old", "c", 2, 0⟩], 2, false⟩)]⟩
    ⟨by simp [mapCanonical], by simp [mapCanonical], by
      intro kv hkv
      simp only [Option.getD_some, List.mem_singleton] at hkv
      rw [hkv]
      exact ⟨by simp [mapCanonical], by simp⟩⟩

end SoloLeveling
